import Mathlib

/-!
Verification of the time-series transformation logic of the dashboard server
(`server.js`): the momentum transformer (`calculateMomentum`), the alignment
block of the `/api/data/momentum` endpoint, the growth transformer
(`calculateMonthOverMonthGrowth`), and the truncation / success-count logic of
the `/api/data/momentum` and `/api/data/growth` endpoints.

Modelling conventions:
* Calendar dates on the timeline are modelled as integers (`ℤ`), an
  order-isomorphic coordinate for the JavaScript millisecond timestamps that
  `new Date(isoString)` produces.  ISO `YYYY-MM-DD` strings compare
  lexicographically exactly as their timestamps compare numerically, so every
  comparison and difference in the source is preserved by this encoding.
* Numeric series values are rationals (`ℚ`).  JavaScript division by zero
  yields `NaN`/`Infinity`; in `ℚ` division by zero yields `0`.  Both disagree
  with any finite nonzero expectation, and no theorem below relies on the
  value of a division by zero being anything in particular.
* The target ("baseline") date that `calculateMomentum` derives from `today`
  and the `period` query parameter is modelled separately at calendar level
  (`computeTargetDate`), since the baseline search only consumes the resulting
  date; the search and rebasing logic takes the target as a parameter.
* JavaScript objects used as string-keyed maps (`monthlyData`, `momentumData`,
  `growthData`) preserve key insertion order; they are modelled as
  association lists with in-place update.
-/

/-! ### Momentum transformer: baseline search state

`server.js` lines 467-468 initialise `baselineIndex = -1` and
`minDiff = Infinity`.  The sentinel `-1` is modelled as `none`, and
`Infinity` as `none` in an `Option ℤ`. -/

structure ScanSt where
  idx : Option ℕ
  minDiff : Option ℤ
deriving DecidableEq

/-- `ltInf d o` is `d < o` where `o = none` plays the role of `Infinity`
(the initial `minDiff` of the baseline scans in `calculateMomentum`). -/
def ltInf (d : ℤ) : Option ℤ → Prop
  | none => True
  | some m => d < m

instance (d : ℤ) : (o : Option ℤ) → Decidable (ltInf d o)
  | none => isTrue trivial
  | some m => inferInstanceAs (Decidable (d < m))

/-- `leInf a b` : `a ≤ b` on `Option ℤ` with `none` as `Infinity`. -/
def leInf : Option ℤ → Option ℤ → Prop
  | _, none => True
  | none, some _ => False
  | some a, some b => a ≤ b

/-- One iteration of a baseline scan loop of `calculateMomentum`: the key
function `κ` yields the candidate `diff` for a date (or `none` when the date
is ineligible), and the loop body
`if (diff < minDiff) { minDiff = diff; baselineIndex = i; }` updates the
state. -/
def scanStep (κ : ℤ → Option ℤ) (i : ℕ) (d : ℤ) (s : ScanSt) : ScanSt :=
  match κ d with
  | some v => if ltInf v s.minDiff then ⟨some i, some v⟩ else s
  | none => s

/-- The scan loops of `calculateMomentum` (`for (let i = 0; ...)`,
`server.js` lines 470-480 and 487-497), processing dates in order with the
running index `i`. -/
def scanMin (κ : ℤ → Option ℤ) : List ℤ → ℕ → ScanSt → ScanSt
  | [], _, s => s
  | d :: ds, i, s => scanMin κ ds (i + 1) (scanStep κ i d s)

/-- Key of the first scan (`server.js` line 473-476):
`diff = targetDate - currentDate`, eligible only when `diff >= 0`
(dates on or before the target). -/
def phase1Key (target d : ℤ) : Option ℤ :=
  if 0 ≤ target - d then some (target - d) else none

/-- Key of the fallback scan (`server.js` line 490):
`diff = Math.abs(currentDate - targetDate)`, every date eligible. -/
def phase2Key (target d : ℤ) : Option ℤ :=
  some |d - target|

/-- Baseline index resolution of `calculateMomentum` (`server.js` lines
466-497): the on-or-before scan; then, only if it left `baselineIndex`
at `-1`, the nearest-any scan, which reuses the `minDiff` variable as the
source does. -/
def resolveBaseline (dates : List ℤ) (target : ℤ) : Option ℕ :=
  let s1 := scanMin (phase1Key target) dates 0 ⟨none, none⟩
  match s1.idx with
  | some i => some i
  | none => (scanMin (phase2Key target) dates 0 s1).idx

/-- Result shape of `calculateMomentum`.  The early returns
`{ dates: [], values: [] }` (with the `baselineDate` field absent or `null`)
are modelled with `baselineDate := none`. -/
structure MomentumResult where
  dates : List ℤ
  values : List ℚ
  baselineDate : Option ℤ
deriving DecidableEq

/-- `calculateMomentum` (`server.js` lines 420-524) with the computed target
date as parameter.  The guard `!dates || !values || dates.length === 0`
becomes `dates.isEmpty`; the guard
`baselineIndex === -1 || baselineIndex >= dates.length` is split between the
`none` branch and the length test.  The output loop
(`for (let i = baselineIndex; i < dates.length; i++)`) pushes `dates[i]` and
`values[i] / baselineValue * 100`; out-of-range `values[i]` (impossible under
the store invariant `values.length = dates.length`) is modelled by `getD _ 0`. -/
def calculateMomentum (dates : List ℤ) (values : List ℚ) (target : ℤ) :
    MomentumResult :=
  if dates.isEmpty then ⟨[], [], none⟩
  else
    match resolveBaseline dates target with
    | none => ⟨[], [], none⟩
    | some b =>
      if dates.length ≤ b then ⟨[], [], none⟩
      else
        let baselineValue := values.getD b 0
        ⟨dates.drop b,
         (List.range' b (dates.length - b)).map
           (fun i => values.getD i 0 / baselineValue * 100),
         some (dates.getD b 0)⟩

/-! ### Alignment block of the `/api/data/momentum` endpoint
(`server.js` lines 238-261). -/

/-- The common-date computation (`server.js` lines 241-244):
`[...allDateSets[0]].filter(date => allDateSets.every(s => s.has(date))).sort()`.
The spread of the first `Set` is a duplicate-free enumeration of the first
indicator's dates (`List.dedup`; the subsequent sort makes the enumeration
order irrelevant), `every` is membership in each date list, and the JS
string sort on ISO dates is the chronological sort (`≤` on the `ℤ`
coordinates). -/
def commonDates (fam : List (List ℤ)) : List ℤ :=
  match fam with
  | [] => []
  | first :: _ =>
      List.insertionSort (· ≤ ·)
        (first.dedup.filter (fun d => fam.all (fun s => decide (d ∈ s))))

/-- The per-indicator filter (`server.js` lines 250-256): the `reduce` walks
`dates` with the running index, pushing `dates[idx]` and `values[idx]`
whenever the date is in `commonDates`.  When `values` is exhausted early
(impossible under the store invariant) only the date is pushed, as the
source pushes `undefined`. -/
def alignOne (common : List ℤ) : List ℤ → List ℚ → List ℤ × List ℚ
  | [], _ => ([], [])
  | d :: ds, [] =>
      let r := alignOne common ds []
      if d ∈ common then (d :: r.1, r.2) else r
  | d :: ds, v :: vs =>
      let r := alignOne common ds vs
      if d ∈ common then (d :: r.1, v :: r.2) else r

/-! ### Calendar arithmetic of `calculateMomentum`'s target date
(`server.js` lines 426-463). -/

/-- Calendar date (the `YYYY-MM-DD` content of an ISO date string),
month `1..12`. -/
structure Ymd where
  year : ℤ
  month : ℤ
  day : ℤ
deriving DecidableEq

/-- Gregorian leap-year rule used by the JavaScript `Date` calendar. -/
def isLeap (y : ℤ) : Bool :=
  (y % 4 == 0 && y % 100 != 0) || y % 400 == 0

/-- Number of days of month `m` (1..12) of year `y` in the JavaScript `Date`
calendar. -/
def daysInMonth (y m : ℤ) : ℤ :=
  if m = 2 then (if isLeap y then 29 else 28)
  else if m = 4 ∨ m = 6 ∨ m = 9 ∨ m = 11 then 30
  else 31

/-- The last day of the absolute month `A` (months counted as
`12 * year + monthIndex` with `monthIndex ∈ 0..11`). -/
def lastDayOfAbsMonth (A : ℤ) : Ymd :=
  ⟨A / 12, A % 12 + 1, daysInMonth (A / 12) (A % 12 + 1)⟩

/-- The `switch (period)` of `calculateMomentum` (`server.js` lines 430-461):
the `(year, monthIndex)` arguments passed to `new Date(year, monthIndex, 0)`,
`monthIndex` 0-based as `Date.prototype.getMonth` returns it. -/
def periodSwitchArgs (y mi : ℤ) : String → ℤ × ℤ
  | "1m" => (y, mi - 1)
  | "6m" => (y, mi - 6)
  | "1y" => (y - 1, mi)
  | "2y" => (y - 2, mi)
  | "3y" => (y - 3, mi)
  | "4y" => (y - 4, mi)
  | "5y" => (y - 5, mi)
  | _ => (y, mi)

/-- JavaScript `new Date(year, monthIndex, 0)`: after month-overflow
normalisation, day `0` is the last day of the month preceding
`(year, monthIndex)`, i.e. of absolute month `12 * year + monthIndex - 1`. -/
def jsDateDay0 (y mi : ℤ) : Ymd :=
  lastDayOfAbsMonth (12 * y + mi - 1)

/-- The target (baseline) date `calculateMomentum` computes from today's
year `y` / month index `mi` and the `period` parameter
(`server.js` lines 426-463). -/
def computeTargetDate (y mi : ℤ) (period : String) : Ymd :=
  jsDateDay0 (periodSwitchArgs y mi period).1 (periodSwitchArgs y mi period).2

/-! ### Growth transformer (`server.js` lines 527-583). -/

/-- Strict chronological order on calendar dates: the order of the ISO date
strings compared by JavaScript `>` in `calculateMonthOverMonthGrowth`. -/
def ymdLt (a b : Ymd) : Prop :=
  a.year < b.year ∨
    (a.year = b.year ∧
      (a.month < b.month ∨ (a.month = b.month ∧ a.day < b.day)))

instance (a b : Ymd) : Decidable (ymdLt a b) := by
  unfold ymdLt; infer_instance

/-- `monthNames` of `calculateMonthOverMonthGrowth` (`server.js` line 570). -/
def monthNames : List String :=
  ["Jan", "Feb", "Mar", "Apr", "May", "Jun",
   "Jul", "Aug", "Sep", "Oct", "Nov", "Dec"]

/-- `monthNames[parseInt(month) - 1]`; an out-of-range month renders as
JavaScript `undefined` does in the template string. -/
def monthAbbrev (m : ℤ) : String :=
  if 1 ≤ m ∧ m ≤ 12 then monthNames.getD (m - 1).toNat "undefined"
  else "undefined"

/-- The `"MMM YYYY"` label of `calculateMonthOverMonthGrowth`
(`server.js` lines 569-571), for a month key `(year, month)`. -/
def formatMonthLabel (k : ℤ × ℤ) : String :=
  monthAbbrev k.2 ++ " " ++ toString k.1

/-- Total order on month keys `(year, month)`: the lexicographic order of the
`"YYYY-MM"` strings that `Object.keys(monthlyData).sort()` sorts by. -/
def monthLe (a b : ℤ × ℤ) : Prop :=
  a.1 < b.1 ∨ (a.1 = b.1 ∧ a.2 ≤ b.2)

instance (a b : ℤ × ℤ) : Decidable (monthLe a b) := by
  unfold monthLe; infer_instance

/-- The update of `monthlyData[yearMonth]` (`server.js` lines 541-546):
absent key inserts `(date, value)` at the end (JS objects preserve key
insertion order); a present key is overwritten exactly when
`dates[i] > monthlyData[yearMonth].date`. -/
def setMonth (d : Ymd) (v : ℚ) :
    List ((ℤ × ℤ) × Ymd × ℚ) → List ((ℤ × ℤ) × Ymd × ℚ)
  | [] => [((d.year, d.month), d, v)]
  | (k, e) :: rest =>
      if k = (d.year, d.month) then
        (if ymdLt e.1 d then (k, d, v) :: rest else (k, e) :: rest)
      else (k, e) :: setMonth d v rest

/-- The bucketing loop of `calculateMonthOverMonthGrowth`
(`server.js` lines 536-547), walking `dates` left to right.  The
`yearMonth = dates[i].substring(0, 7)` key is the `(year, month)` pair.
A missing `values[i]` (impossible under the store invariant) is modelled
as `0`. -/
def buildMonthlyGo :
    List Ymd → List ℚ → List ((ℤ × ℤ) × Ymd × ℚ) → List ((ℤ × ℤ) × Ymd × ℚ)
  | [], _, acc => acc
  | d :: ds, [], acc => buildMonthlyGo ds [] (setMonth d 0 acc)
  | d :: ds, v :: vs, acc => buildMonthlyGo ds vs (setMonth d v acc)

def buildMonthly (dates : List Ymd) (values : List ℚ) :
    List ((ℤ × ℤ) × Ymd × ℚ) :=
  buildMonthlyGo dates values []

/-- `calculateMonthOverMonthGrowth` (`server.js` lines 527-583): bucket by
month keeping the last observation, sort the month keys, then emit one
`(label, percent change)` per consecutive pair of months.  `monthlyData[k]`
lookups (always present for keys of `sortedMonths`) are modelled by `find?`. -/
def calculateMonthOverMonthGrowth (dates : List Ymd) (values : List ℚ) :
    List String × List ℚ :=
  if dates.isEmpty then ([], [])
  else
    let monthly := buildMonthly dates values
    let sortedMonths := List.insertionSort monthLe (monthly.map Prod.fst)
    let lookupV : ℤ × ℤ → ℚ := fun k =>
      (((monthly.find? (fun e => decide (e.1 = k))).map
        (fun e => e.2.2)).getD 0)
    let pairs := sortedMonths.zip sortedMonths.tail
    (pairs.map (fun pc => formatMonthLabel pc.2),
     pairs.map (fun pc => (lookupV pc.2 - lookupV pc.1) / lookupV pc.1 * 100))

/-! ### Reference definition for the growth transformer (C4).

These definitions follow the specification's words ("bucket observations by
the YYYY-MM prefix keeping the chronologically last observation of each
month, sort the month keys ascending, emit percent changes"), to be compared
with `calculateMonthOverMonthGrowth` above. -/

/-- Duplicate removal keeping the first occurrence of each element, in
order. -/
def dedupFirst {α : Type} [DecidableEq α] : List α → List α
  | [] => []
  | a :: l => a :: (dedupFirst l).filter (fun x => decide (x ≠ a))

/-- Pick the pair with the latest date, scanning left to right from `init`
(ties, impossible for strictly increasing dates, resolved to the earlier
pair as the source's strict `>` does). -/
def chronFold (init : Option (Ymd × ℚ)) : List (Ymd × ℚ) → Option (Ymd × ℚ) :=
  List.foldl
    (fun acc p =>
      match acc with
      | none => some p
      | some q => if ymdLt q.1 p.1 then some p else some q)
    init

/-- The chronologically last observation among the `(date, value)` pairs of
month `k`. -/
def chronLastObs (pairs : List (Ymd × ℚ)) (k : ℤ × ℤ) : Option (Ymd × ℚ) :=
  chronFold none (pairs.filter (fun p => decide ((p.1.year, p.1.month) = k)))

/-- Reference month-over-month growth, written from the specification's
description of the algorithm. -/
def refMonthlyGrowth (dates : List Ymd) (values : List ℚ) :
    List String × List ℚ :=
  let pairs := dates.zip values
  let months :=
    List.insertionSort monthLe (dedupFirst (dates.map fun d => (d.year, d.month)))
  let lastV : ℤ × ℤ → ℚ := fun k => ((chronLastObs pairs k).map Prod.snd).getD 0
  let consec := months.zip months.tail
  (consec.map (fun pc => formatMonthLabel pc.2),
   consec.map (fun pc => (lastV pc.2 - lastV pc.1) / lastV pc.1 * 100))

/-! ### Endpoint orchestration (`server.js` lines 196-276 and 279-345). -/

/-- Response shape of `/api/data/momentum` (`server.js` lines 263-267);
`data` keeps the indicator-keyed entries in insertion order. -/
structure MomResp where
  success : Bool
  data : List (String × MomentumResult)
  count : ℕ
deriving DecidableEq

/-- The read/transform loop of `/api/data/momentum` (`server.js` lines
207-234): an unreadable store entry (`none`) is skipped; a readable one is
transformed, and recorded (with `successCount++`) exactly when
`normalized.dates.length > 0`.  Returns the `momentumData` entries in loop
order together with `successCount`. -/
def momPhase1 (target : ℤ) :
    List (String × Option (List ℤ × List ℚ)) →
      List (String × MomentumResult) × ℕ
  | [] => ([], 0)
  | e :: rest =>
      let tail := momPhase1 target rest
      match e.2 with
      | none => tail
      | some s =>
          let r := calculateMomentum s.1 s.2 target
          if r.dates.isEmpty then tail else ((e.1, r) :: tail.1, tail.2 + 1)

/-- The alignment loop (`server.js` lines 249-260): every indicator's dates
and values are replaced by their filtrate on the common dates;
`baselineDate` is untouched. -/
def alignMomentum (data : List (String × MomentumResult)) :
    List (String × MomentumResult) :=
  let common := commonDates (data.map (fun e => e.2.dates))
  data.map (fun e =>
    let f := alignOne common e.2.dates e.2.values
    (e.1, ⟨f.1, f.2, e.2.baselineDate⟩))

/-- `/api/data/momentum` (`server.js` lines 197-276): phase 1, then the
alignment block guarded by `if (successCount > 0)`, then the response
`{ success: successCount > 0, data, count: successCount }`. -/
def momentumEndpoint (target : ℤ)
    (inputs : List (String × Option (List ℤ × List ℚ))) : MomResp :=
  let p := momPhase1 target inputs
  ⟨decide (0 < p.2), if 0 < p.2 then alignMomentum p.1 else p.1, p.2⟩

/-- Response shape of `/api/data/growth` (`server.js` lines 332-336). -/
structure GrowthResp where
  success : Bool
  data : List (String × (List String × List ℚ))
  count : ℕ
deriving DecidableEq

/-- The 24-month window of `/api/data/growth` (`server.js` lines 322-326):
`if (dates.length > 24) { dates.slice(-24); values.slice(-24) }`. -/
def truncate24 (g : List String × List ℚ) : List String × List ℚ :=
  if 24 < g.1.length then
    (g.1.drop (g.1.length - 24), g.2.drop (g.2.length - 24))
  else g

/-- The read/transform loop of `/api/data/growth` (`server.js` lines
286-312), mirroring `momPhase1` with `calculateMonthOverMonthGrowth` and the
guard `growth.dates.length > 0`. -/
def growthPhase1 :
    List (String × Option (List Ymd × List ℚ)) →
      List (String × (List String × List ℚ)) × ℕ
  | [] => ([], 0)
  | e :: rest =>
      let tail := growthPhase1 rest
      match e.2 with
      | none => tail
      | some s =>
          let g := calculateMonthOverMonthGrowth s.1 s.2
          if g.1.isEmpty then tail else ((e.1, g) :: tail.1, tail.2 + 1)

/-- `/api/data/growth` (`server.js` lines 279-345): phase 1, then the
per-indicator 24-month truncation guarded by `if (successCount > 0)`, then
the response `{ success: successCount > 0, data, count: successCount }`. -/
def growthEndpoint
    (inputs : List (String × Option (List Ymd × List ℚ))) : GrowthResp :=
  let p := growthPhase1 inputs
  ⟨decide (0 < p.2),
   if 0 < p.2 then p.1.map (fun e => (e.1, truncate24 e.2)) else p.1,
   p.2⟩

/-- An indicator "produced data" for the momentum endpoint: its store entry
was readable and its momentum result non-empty. -/
def momProductive (target : ℤ) (e : String × Option (List ℤ × List ℚ)) :
    Bool :=
  match e.2 with
  | none => false
  | some s => !(calculateMomentum s.1 s.2 target).dates.isEmpty

/-- An indicator "produced data" for the growth endpoint. -/
def growthProductive (e : String × Option (List Ymd × List ℚ)) : Bool :=
  match e.2 with
  | none => false
  | some s => !(calculateMonthOverMonthGrowth s.1 s.2).1.isEmpty

/-! ### Lemmas about the baseline scans. -/

theorem leInf_refl (o : Option ℤ) : leInf o o := by
  cases o <;> simp [leInf]

theorem leInf_some_dest {a : Option ℤ} {x : ℤ} (h : leInf a (some x)) :
    ∃ u, a = some u ∧ u ≤ x := by
  cases a with
  | none => exact absurd h (by simp [leInf])
  | some u => exact ⟨u, rfl, h⟩

theorem leInf_trans {a b c : Option ℤ} (h1 : leInf a b) (h2 : leInf b c) :
    leInf a c := by
  cases c with
  | none => simp [leInf]
  | some x =>
    cases b with
    | none => exact absurd h2 (by simp [leInf])
    | some y =>
      cases a with
      | none => exact absurd h1 (by simp [leInf])
      | some z => exact le_trans (α := ℤ) h1 h2

theorem leInf_some_of_ltInf {v : ℤ} {o : Option ℤ} (h : ltInf v o) :
    leInf (some v) o := by
  cases o with
  | none => simp [leInf]
  | some m => exact le_of_lt (α := ℤ) h

theorem not_ltInf_mono {v : ℤ} {a b : Option ℤ} (hab : leInf a b)
    (h : ¬ ltInf v b) : ¬ ltInf v a := by
  cases b with
  | none => exact absurd trivial h
  | some m =>
    obtain ⟨u, rfl, hu⟩ := leInf_some_dest hab
    intro hv
    exact h (lt_of_lt_of_le (α := ℤ) hv hu)

theorem scanStep_some {κ : ℤ → Option ℤ} {i : ℕ} {d : ℤ} (s : ScanSt)
    {v : ℤ} (hκ : κ d = some v) :
    scanStep κ i d s = if ltInf v s.minDiff then ⟨some i, some v⟩ else s := by
  unfold scanStep; rw [hκ]

theorem scanStep_none {κ : ℤ → Option ℤ} {i : ℕ} {d : ℤ} (s : ScanSt)
    (hκ : κ d = none) : scanStep κ i d s = s := by
  unfold scanStep; rw [hκ]

theorem scanStep_minDiff_le (κ : ℤ → Option ℤ) (i : ℕ) (d : ℤ) (s : ScanSt) :
    leInf (scanStep κ i d s).minDiff s.minDiff := by
  cases hκ : κ d with
  | none => rw [scanStep_none s hκ]; exact leInf_refl _
  | some v =>
    rw [scanStep_some s hκ]
    by_cases hlt : ltInf v s.minDiff
    · rw [if_pos hlt]; exact leInf_some_of_ltInf hlt
    · rw [if_neg hlt]; exact leInf_refl _

theorem scanMin_minDiff_le (κ : ℤ → Option ℤ) (l : List ℤ) (i : ℕ)
    (s : ScanSt) : leInf (scanMin κ l i s).minDiff s.minDiff := by
  induction l generalizing i s with
  | nil => exact leInf_refl _
  | cons d ds ih =>
    exact leInf_trans (ih (i + 1) (scanStep κ i d s)) (scanStep_minDiff_le κ i d s)

theorem scanStep_key_not_ltInf (κ : ℤ → Option ℤ) (i : ℕ) (d : ℤ) (s : ScanSt)
    {v : ℤ} (hκ : κ d = some v) : ¬ ltInf v (scanStep κ i d s).minDiff := by
  rw [scanStep_some s hκ]
  by_cases hlt : ltInf v s.minDiff
  · rw [if_pos hlt]; simp [ltInf]
  · rw [if_neg hlt]; exact hlt

theorem scanMin_not_ltInf (κ : ℤ → Option ℤ) (l : List ℤ) (i : ℕ) (s : ScanSt) :
    ∀ d ∈ l, ∀ v, κ d = some v → ¬ ltInf v (scanMin κ l i s).minDiff := by
  induction l generalizing i s with
  | nil => intro d hd; exact absurd hd (List.not_mem_nil d)
  | cons d0 ds ih =>
    intro d hd v hκ
    rcases List.mem_cons.mp hd with h | h
    · subst h
      exact not_ltInf_mono (scanMin_minDiff_le κ ds (i + 1) (scanStep κ i d s))
        (scanStep_key_not_ltInf κ i d s hκ)
    · exact ih (i + 1) (scanStep κ i d0 s) d h v hκ

theorem scanMin_result (κ : ℤ → Option ℤ) (l : List ℤ) (i : ℕ) (s : ScanSt) :
    scanMin κ l i s = s ∨
      ∃ pos, pos < l.length ∧ ∃ v, κ (l.getD pos 0) = some v ∧
        scanMin κ l i s = ⟨some (i + pos), some v⟩ := by
  induction l generalizing i s with
  | nil => exact Or.inl rfl
  | cons d ds ih =>
    rcases ih (i + 1) (scanStep κ i d s) with h | ⟨pos, hpos, v, hκ, ht⟩
    · cases hκd : κ d with
      | none =>
        left
        show scanMin κ ds (i + 1) (scanStep κ i d s) = s
        rw [h]; exact scanStep_none s hκd
      | some v =>
        by_cases hlt : ltInf v s.minDiff
        · right
          refine ⟨0, by simp, v, by simpa using hκd, ?_⟩
          show scanMin κ ds (i + 1) (scanStep κ i d s) = _
          rw [h, scanStep_some s hκd, if_pos hlt, Nat.add_zero]
        · left
          show scanMin κ ds (i + 1) (scanStep κ i d s) = s
          rw [h, scanStep_some s hκd, if_neg hlt]
    · right
      refine ⟨pos + 1, by simpa using Nat.succ_lt_succ hpos, v, ?_, ?_⟩
      · simpa [List.getD_cons_succ] using hκ
      · show scanMin κ ds (i + 1) (scanStep κ i d s) = _
        rw [ht]
        have harith : i + 1 + pos = i + (pos + 1) := by omega
        rw [harith]

theorem scanMin_all_none (κ : ℤ → Option ℤ) (l : List ℤ) (i : ℕ) (s : ScanSt)
    (h : ∀ d ∈ l, κ d = none) : scanMin κ l i s = s := by
  induction l generalizing i s with
  | nil => rfl
  | cons d ds ih =>
    show scanMin κ ds (i + 1) (scanStep κ i d s) = s
    rw [scanStep_none s (h d (List.mem_cons_self d ds))]
    exact ih (i + 1) s (fun d' hd' => h d' (List.mem_cons_of_mem d hd'))

/-! ### Lemmas about `resolveBaseline`. -/

theorem resolveBaseline_eq (dates : List ℤ) (target : ℤ) :
    resolveBaseline dates target =
      match (scanMin (phase1Key target) dates 0 ⟨none, none⟩).idx with
      | some i => some i
      | none => (scanMin (phase2Key target) dates 0
          (scanMin (phase1Key target) dates 0 ⟨none, none⟩)).idx := rfl

theorem getD_mem_of_lt (l : List ℤ) (j : ℕ) (hj : j < l.length) :
    l.getD j 0 ∈ l := by
  rw [List.getD_eq_getElem l 0 hj]
  exact List.getElem_mem hj

theorem phase1Key_of_le {target d : ℤ} (h : d ≤ target) :
    phase1Key target d = some (target - d) := by
  unfold phase1Key; rw [if_pos (by omega)]

theorem phase1Key_some {target d v : ℤ} (h : phase1Key target d = some v) :
    d ≤ target ∧ v = target - d := by
  unfold phase1Key at h
  by_cases h0 : 0 ≤ target - d
  · rw [if_pos h0] at h
    exact ⟨by omega, (Option.some.inj h).symm⟩
  · rw [if_neg h0] at h
    exact absurd h (by simp)

theorem phase1Key_none_of_lt {target d : ℤ} (h : target < d) :
    phase1Key target d = none := by
  unfold phase1Key; rw [if_neg (by omega)]

/-- Phase 1 of the baseline search: whenever some date is on or before the
target, the first scan resolves an in-range index whose date is on or before
the target and latest among such dates (minimal non-negative difference). -/
theorem resolveBaseline_found (dates : List ℤ) (target : ℤ)
    (h : ∃ d ∈ dates, d ≤ target) :
    ∃ b, resolveBaseline dates target = some b ∧ b < dates.length ∧
      dates.getD b 0 ≤ target ∧
      ∀ j, j < dates.length → dates.getD j 0 ≤ target →
        dates.getD j 0 ≤ dates.getD b 0 := by
  obtain ⟨d0, hd0mem, hd0le⟩ := h
  rcases scanMin_result (phase1Key target) dates 0 ⟨none, none⟩ with
    hres | ⟨pos, hpos, v, hκ, hres⟩
  · have hmin := scanMin_not_ltInf (phase1Key target) dates 0 ⟨none, none⟩
      d0 hd0mem (target - d0) (phase1Key_of_le hd0le)
    rw [hres] at hmin
    exact absurd trivial hmin
  · obtain ⟨hle, hveq⟩ := phase1Key_some hκ
    refine ⟨pos, ?_, hpos, hle, ?_⟩
    · rw [resolveBaseline_eq, hres]
      simp
    · intro j hj hjle
      have hmin := scanMin_not_ltInf (phase1Key target) dates 0 ⟨none, none⟩
        (dates.getD j 0) (getD_mem_of_lt dates j hj)
        (target - dates.getD j 0) (phase1Key_of_le hjle)
      rw [hres] at hmin
      simp only [ltInf, not_lt] at hmin
      omega

/-- Phase 2 of the baseline search: when every date is strictly after the
target, the fallback scan resolves an in-range index whose date has minimal
absolute distance to the target. -/
theorem resolveBaseline_fallback (dates : List ℤ) (target : ℤ)
    (hne : dates ≠ []) (h : ∀ d ∈ dates, target < d) :
    ∃ b, resolveBaseline dates target = some b ∧ b < dates.length ∧
      ∀ j, j < dates.length →
        |dates.getD b 0 - target| ≤ |dates.getD j 0 - target| := by
  have h1 : scanMin (phase1Key target) dates 0 ⟨none, none⟩ = ⟨none, none⟩ :=
    scanMin_all_none _ _ _ _ (fun d hd => phase1Key_none_of_lt (h d hd))
  rcases scanMin_result (phase2Key target) dates 0 ⟨none, none⟩ with
    hres | ⟨pos, hpos, v, hκ, hres⟩
  · obtain ⟨d0, hd0⟩ := List.exists_mem_of_ne_nil dates hne
    have hmin := scanMin_not_ltInf (phase2Key target) dates 0 ⟨none, none⟩
      d0 hd0 |d0 - target| rfl
    rw [hres] at hmin
    exact absurd trivial hmin
  · have hv : v = |dates.getD pos 0 - target| :=
      (Option.some.inj hκ).symm
    refine ⟨pos, ?_, hpos, ?_⟩
    · rw [resolveBaseline_eq, h1, hres]
      simp
    · intro j hj
      have hmin := scanMin_not_ltInf (phase2Key target) dates 0 ⟨none, none⟩
        (dates.getD j 0) (getD_mem_of_lt dates j hj)
        |dates.getD j 0 - target| rfl
      rw [hres] at hmin
      simp only [ltInf, not_lt] at hmin
      rw [hv] at hmin
      exact hmin

/-- Baseline resolution always succeeds on a non-empty date list, with an
in-range index. -/
theorem resolveBaseline_total (dates : List ℤ) (target : ℤ)
    (hne : dates ≠ []) :
    ∃ b, resolveBaseline dates target = some b ∧ b < dates.length := by
  by_cases h : ∃ d ∈ dates, d ≤ target
  · obtain ⟨b, h1, h2, _, _⟩ := resolveBaseline_found dates target h
    exact ⟨b, h1, h2⟩
  · push_neg at h
    obtain ⟨b, h1, h2, _⟩ := resolveBaseline_fallback dates target hne h
    exact ⟨b, h1, h2⟩

theorem resolveBaseline_lt_length {dates : List ℤ} {target : ℤ} {b : ℕ}
    (hne : dates ≠ []) (h : resolveBaseline dates target = some b) :
    b < dates.length := by
  obtain ⟨b', h', hlt⟩ := resolveBaseline_total dates target hne
  rw [h] at h'
  rw [Option.some.inj h']
  exact hlt

/-! ### Lemmas about `calculateMomentum`. -/

theorem calculateMomentum_resolved {dates : List ℤ} {values : List ℚ}
    {target : ℤ} {b : ℕ} (hne : dates ≠ [])
    (hb : resolveBaseline dates target = some b) :
    calculateMomentum dates values target =
      ⟨dates.drop b,
       (List.range' b (dates.length - b)).map
         (fun i => values.getD i 0 / values.getD b 0 * 100),
       some (dates.getD b 0)⟩ := by
  have hlt := resolveBaseline_lt_length hne hb
  have h1 : dates.isEmpty = false := by
    cases dates with
    | nil => exact absurd rfl hne
    | cons a l => rfl
  have h2 : ¬ dates.length ≤ b := by omega
  simp only [calculateMomentum, h1, hb, Bool.false_eq_true, if_false, h2]

/-! ### Claims about the momentum transformer. -/

/-- C1 counterexample: on the non-empty series with dates `[0]` and values
`[0]` (a legal series: values need only be finite), the first momentum value
is not 100 — the zero baseline value makes `values[0] / baselineValue * 100`
equal to `NaN` in JavaScript and `0` in the rational model, in either case
not `100`. -/
theorem momentum_first_value_zero_baseline_cex :
    (calculateMomentum [0] [0] 0).values.head? ≠ some 100 := by
  rw [calculateMomentum_resolved (show ([0] : List ℤ) ≠ [] by decide)
    (show resolveBaseline [0] 0 = some 0 by decide)]
  norm_num [List.range'_succ]

/-- C1 (amended): for every non-empty input series whose value at the
resolved baseline index is nonzero, the first value of the momentum result
is exactly 100 (the baseline value divided by itself times 100). -/
theorem momentum_first_value_100 (dates : List ℤ) (values : List ℚ)
    (target : ℤ) (b : ℕ) (hne : dates ≠ [])
    (hb : resolveBaseline dates target = some b)
    (hv : values.getD b 0 ≠ 0) :
    (calculateMomentum dates values target).values.head? = some 100 := by
  have hlt := resolveBaseline_lt_length hne hb
  rw [calculateMomentum_resolved hne hb]
  have hn : dates.length - b = (dates.length - b - 1) + 1 := by omega
  rw [hn, List.range'_succ]
  simp only [List.map_cons, List.head?_cons, Option.some.injEq]
  rw [div_self hv]
  norm_num

theorem momentum_first_value_100_witness :
    (calculateMomentum [5] [7] 5).values.head? = some 100 :=
  momentum_first_value_100 [5] [7] 5 0 (by decide) (by decide) (by decide)

/-- C3: baseline resolution is a two-phase search.  Whenever some date is on
or before the target, the resolved index has a date on or before the target
with minimal non-negative difference (the latest such date); only when every
date is strictly after the target does the fallback pick an index whose date
has minimal absolute distance to the target. -/
theorem baseline_two_phase (dates : List ℤ) (target : ℤ) (hne : dates ≠ []) :
    ((∃ d ∈ dates, d ≤ target) →
      ∃ b, resolveBaseline dates target = some b ∧ b < dates.length ∧
        dates.getD b 0 ≤ target ∧
        ∀ j, j < dates.length → dates.getD j 0 ≤ target →
          dates.getD j 0 ≤ dates.getD b 0) ∧
    ((∀ d ∈ dates, target < d) →
      ∃ b, resolveBaseline dates target = some b ∧ b < dates.length ∧
        ∀ j, j < dates.length →
          |dates.getD b 0 - target| ≤ |dates.getD j 0 - target|) :=
  ⟨fun h => resolveBaseline_found dates target h,
   fun h => resolveBaseline_fallback dates target hne h⟩

theorem baseline_two_phase_witness :
    ∃ b, resolveBaseline [5, 2] 3 = some b ∧ b < ([5, 2] : List ℤ).length ∧
      ([5, 2] : List ℤ).getD b 0 ≤ 3 ∧
      ∀ j, j < ([5, 2] : List ℤ).length → ([5, 2] : List ℤ).getD j 0 ≤ 3 →
        ([5, 2] : List ℤ).getD j 0 ≤ ([5, 2] : List ℤ).getD b 0 :=
  (baseline_two_phase [5, 2] 3 (by decide)).1 (by decide)

/-- C5: for every series and target, the momentum output is a contiguous
suffix of the input dates starting at the resolved baseline index, with
matching values length, output length at most the input length, and
`baselineDate` equal to the first output date (the actual matched input
date). -/
theorem momentum_output_shape (dates : List ℤ) (values : List ℚ)
    (target : ℤ) :
    ∃ b, b ≤ dates.length ∧
      (calculateMomentum dates values target).dates = dates.drop b ∧
      (calculateMomentum dates values target).values.length
        = (calculateMomentum dates values target).dates.length ∧
      (calculateMomentum dates values target).dates.length ≤ dates.length ∧
      (calculateMomentum dates values target).baselineDate
        = (calculateMomentum dates values target).dates.head? := by
  by_cases hne : dates = []
  · subst hne
    refine ⟨0, Nat.le_refl _, ?_, ?_, ?_, ?_⟩ <;> simp [calculateMomentum]
  · obtain ⟨b, hb, hlt⟩ := resolveBaseline_total dates target hne
    rw [calculateMomentum_resolved hne hb]
    refine ⟨b, by omega, rfl, ?_, ?_, ?_⟩
    · simp
    · simp
    · simp only [List.head?_drop]
      rw [List.getElem?_eq_getElem hlt, List.getD_eq_getElem dates 0 hlt]

/-- C10: on every non-empty input the baseline search necessarily resolves
an in-range index (the fallback scan starts with `minDiff = Infinity` and
therefore always selects something), so the guard branch returning
`{ dates: [], values: [] }` with no `baselineDate` field is unreachable:
the result is non-empty and `baselineDate` is an element of the input
dates. -/
theorem baseline_resolution_never_empty (dates : List ℤ) (values : List ℚ)
    (target : ℤ) (hne : dates ≠ []) :
    ∃ b, resolveBaseline dates target = some b ∧ b < dates.length ∧
      (calculateMomentum dates values target).dates ≠ [] ∧
      (calculateMomentum dates values target).baselineDate
        = some (dates.getD b 0) ∧
      dates.getD b 0 ∈ dates := by
  obtain ⟨b, hb, hlt⟩ := resolveBaseline_total dates target hne
  have hdrop : dates.drop b ≠ [] := by
    intro hcon
    rw [List.drop_eq_nil_iff] at hcon
    omega
  rw [calculateMomentum_resolved hne hb]
  exact ⟨b, hb, hlt, hdrop, rfl, getD_mem_of_lt dates b hlt⟩

theorem baseline_resolution_never_empty_witness :
    ∃ b, resolveBaseline [4, 9] 5 = some b ∧ b < ([4, 9] : List ℤ).length ∧
      (calculateMomentum [4, 9] [1, 2] 5).dates ≠ [] ∧
      (calculateMomentum [4, 9] [1, 2] 5).baselineDate
        = some (([4, 9] : List ℤ).getD b 0) ∧
      ([4, 9] : List ℤ).getD b 0 ∈ ([4, 9] : List ℤ) :=
  baseline_resolution_never_empty [4, 9] [1, 2] 5 (by decide)

/-! ### Claims about the target-date calendar arithmetic (C6). -/

/-- C6 counterexample: with today in October 2026 (month index 9), period
`1y` yields `2025-09-30` — the last day of the month *preceding* the
current month one year back — whereas "the last day of the month one year
before the current month" is October 2025, whose last day is `2025-10-31`. -/
theorem target_date_one_year_cex :
    computeTargetDate 2026 9 "1y" = ⟨2025, 9, 30⟩ ∧
    lastDayOfAbsMonth (12 * 2026 + 9 - 12) = ⟨2025, 10, 31⟩ ∧
    computeTargetDate 2026 9 "1y" ≠ lastDayOfAbsMonth (12 * 2026 + 9 - 12) := by
  refine ⟨by decide, by decide, by decide⟩

/-- C6 (amended): every supported period maps to a fixed calendar-month
offset (never a fixed day count): counting months absolutely
(`12 * year + monthIndex`), `1m` yields the last day of the month two
months before the current month (the month immediately preceding the
previous month, as claimed), while `1y` yields the last day of the month
thirteen months before the current month — the month immediately preceding
the month one year before the current month; analogously `6m` ↦ 7,
`2y` ↦ 25, `3y` ↦ 37, `4y` ↦ 49, `5y` ↦ 61 months back. -/
theorem target_date_calendar_offsets (y mi : ℤ) :
    computeTargetDate y mi "1m" = lastDayOfAbsMonth (12 * y + mi - 2) ∧
    computeTargetDate y mi "6m" = lastDayOfAbsMonth (12 * y + mi - 7) ∧
    computeTargetDate y mi "1y" = lastDayOfAbsMonth (12 * y + mi - 13) ∧
    computeTargetDate y mi "2y" = lastDayOfAbsMonth (12 * y + mi - 25) ∧
    computeTargetDate y mi "3y" = lastDayOfAbsMonth (12 * y + mi - 37) ∧
    computeTargetDate y mi "4y" = lastDayOfAbsMonth (12 * y + mi - 49) ∧
    computeTargetDate y mi "5y" = lastDayOfAbsMonth (12 * y + mi - 61) := by
  refine ⟨?_, ?_, ?_, ?_, ?_, ?_, ?_⟩ <;>
    · show lastDayOfAbsMonth _ = lastDayOfAbsMonth _
      simp only [periodSwitchArgs]
      congr 1
      ring

/-! ### Lemmas about the alignment block. -/

theorem alignOne_fst (common : List ℤ) (ds : List ℤ) (vs : List ℚ) :
    (alignOne common ds vs).1 = ds.filter (fun d => decide (d ∈ common)) := by
  induction ds generalizing vs with
  | nil => cases vs <;> rfl
  | cons d ds ih =>
    cases vs with
    | nil =>
      simp only [alignOne, List.filter_cons]
      by_cases h : d ∈ common
      · rw [if_pos h]; simp [h, ih]
      · rw [if_neg h]; simp [h, ih]
    | cons v vs =>
      simp only [alignOne, List.filter_cons]
      by_cases h : d ∈ common
      · rw [if_pos h]; simp [h, ih]
      · rw [if_neg h]; simp [h, ih]

theorem alignOne_common_nil (ds : List ℤ) (vs : List ℚ) :
    alignOne [] ds vs = ([], []) := by
  induction ds generalizing vs with
  | nil => cases vs <;> rfl
  | cons d ds ih =>
    cases vs with
    | nil =>
      simp only [alignOne]
      rw [if_neg (List.not_mem_nil d)]
      exact ih []
    | cons v vs =>
      simp only [alignOne]
      rw [if_neg (List.not_mem_nil d)]
      exact ih vs

theorem alignOne_all_mem (common : List ℤ) (ds : List ℤ) (vs : List ℚ)
    (hmem : ∀ d ∈ ds, d ∈ common) (hlen : vs.length = ds.length) :
    alignOne common ds vs = (ds, vs) := by
  induction ds generalizing vs with
  | nil =>
    cases vs with
    | nil => rfl
    | cons v vs => simp at hlen
  | cons d ds ih =>
    cases vs with
    | nil => simp at hlen
    | cons v vs =>
      simp only [alignOne]
      rw [ih vs (fun d' hd' => hmem d' (List.mem_cons_of_mem d hd'))
        (by simpa using hlen)]
      rw [if_pos (hmem d (List.mem_cons_self d ds))]

theorem mem_commonDates (first : List ℤ) (rest : List (List ℤ)) (d : ℤ) :
    d ∈ commonDates (first :: rest) ↔
      d ∈ first ∧ ∀ s ∈ first :: rest, d ∈ s := by
  unfold commonDates
  rw [List.Perm.mem_iff (List.perm_insertionSort _ _)]
  simp [List.mem_filter, List.all_eq_true, List.mem_dedup]

theorem commonDates_sorted (first : List ℤ) (rest : List (List ℤ)) :
    List.Sorted (· ≤ ·) (commonDates (first :: rest)) :=
  List.sorted_insertionSort _ _

theorem commonDates_nodup (first : List ℤ) (rest : List (List ℤ)) :
    (commonDates (first :: rest)).Nodup :=
  ((List.perm_insertionSort _ _).nodup_iff).mpr
    ((List.nodup_dedup first).filter _)

theorem sorted_le_eq_of_mem_iff {l₁ l₂ : List ℤ}
    (h₁ : List.Sorted (· ≤ ·) l₁) (h₂ : List.Sorted (· ≤ ·) l₂)
    (hn₁ : l₁.Nodup) (hn₂ : l₂.Nodup)
    (hmem : ∀ x, x ∈ l₁ ↔ x ∈ l₂) : l₁ = l₂ :=
  List.eq_of_perm_of_sorted
    ((List.perm_ext_iff_of_nodup hn₁ hn₂).mpr hmem) h₁ h₂

/-! ### Claims about the alignment block. -/

/-- C2: after each momentum series is filtered to the intersection of all
indicators' date sets, every output series has date sequence exactly the
sorted common-date list — in particular all output date sequences are
identical — and an empty intersection makes every output empty (no error:
the computation is total).  The hypothesis that each date list is strictly
sorted is the Series invariant (strictly increasing dates), which momentum
outputs inherit as suffixes of store series. -/
theorem align_common_dates (fam : List (List ℤ × List ℚ)) (hne : fam ≠ [])
    (hsorted : ∀ s ∈ fam, List.Sorted (· < ·) s.1) :
    (∀ s ∈ fam,
      (alignOne (commonDates (fam.map Prod.fst)) s.1 s.2).1
        = commonDates (fam.map Prod.fst)) ∧
    (commonDates (fam.map Prod.fst) = [] →
      ∀ s ∈ fam, alignOne (commonDates (fam.map Prod.fst)) s.1 s.2 = ([], [])) := by
  constructor
  · intro s hs
    rw [alignOne_fst]
    cases fam with
    | nil => exact absurd rfl hne
    | cons s0 rest =>
      have hmap : (s0 :: rest).map Prod.fst = s0.1 :: rest.map Prod.fst := rfl
      rw [hmap]
      have hsort_s := hsorted s hs
      refine sorted_le_eq_of_mem_iff ?_ (commonDates_sorted _ _) ?_
        (commonDates_nodup _ _) ?_
      · exact (hsort_s.filter _).imp (fun h => le_of_lt h)
      · exact hsort_s.nodup.filter _
      · intro x
        rw [List.mem_filter]
        simp only [decide_eq_true_eq]
        constructor
        · rintro ⟨-, hx⟩; exact hx
        · intro hx
          refine ⟨?_, hx⟩
          have := (mem_commonDates s0.1 (rest.map Prod.fst) x).mp hx
          exact this.2 s.1 (List.mem_map_of_mem Prod.fst hs)
  · intro hC s hs
    rw [hC]
    exact alignOne_common_nil s.1 s.2

theorem align_common_dates_witness :
    (alignOne (commonDates ([(([1, 2, 3] : List ℤ), ([10, 20, 30] : List ℚ)),
          (([2, 3, 4] : List ℤ), ([5, 6, 7] : List ℚ))].map Prod.fst))
        [1, 2, 3] [10, 20, 30]).1
      = commonDates ([(([1, 2, 3] : List ℤ), ([10, 20, 30] : List ℚ)),
          (([2, 3, 4] : List ℤ), ([5, 6, 7] : List ℚ))].map Prod.fst) :=
  (align_common_dates
      [(([1, 2, 3] : List ℤ), ([10, 20, 30] : List ℚ)),
       (([2, 3, 4] : List ℤ), ([5, 6, 7] : List ℚ))]
      (by decide) (by decide)).1
    (([1, 2, 3] : List ℤ), ([10, 20, 30] : List ℚ)) (by decide)

/-- C9: alignment is idempotent — if every indicator already has the same
date sequence `D`, the alignment step returns every series unchanged (both
dates and values; values lengths per the Series invariant). -/
theorem align_idempotent (fam : List (List ℤ × List ℚ)) (D : List ℤ)
    (hne : fam ≠ []) (hD : ∀ s ∈ fam, s.1 = D)
    (hlen : ∀ s ∈ fam, s.2.length = s.1.length) :
    ∀ s ∈ fam,
      alignOne (commonDates (fam.map Prod.fst)) s.1 s.2 = (s.1, s.2) := by
  intro s hs
  refine alignOne_all_mem _ s.1 s.2 ?_ (hlen s hs)
  intro d hd
  cases fam with
  | nil => exact absurd rfl hne
  | cons s0 rest =>
    have hmap : (s0 :: rest).map Prod.fst = s0.1 :: rest.map Prod.fst := rfl
    rw [hmap, mem_commonDates]
    have hdD : d ∈ D := (hD s hs) ▸ hd
    constructor
    · rw [hD s0 (List.mem_cons_self s0 rest)]; exact hdD
    · intro t ht
      rcases List.mem_cons.mp ht with h | h
      · rw [h, hD s0 (List.mem_cons_self s0 rest)]; exact hdD
      · obtain ⟨u, hu, rfl⟩ := List.mem_map.mp h
        rw [hD u (List.mem_cons_of_mem s0 hu)]
        exact hdD

theorem align_idempotent_witness :
    alignOne (commonDates ([(([1, 2] : List ℤ), ([3, 4] : List ℚ)),
          (([1, 2] : List ℤ), ([5, 6] : List ℚ))].map Prod.fst))
        [1, 2] [3, 4]
      = ([1, 2], [3, 4]) :=
  align_idempotent
    [(([1, 2] : List ℤ), ([3, 4] : List ℚ)),
     (([1, 2] : List ℤ), ([5, 6] : List ℚ))]
    [1, 2] (by decide) (by decide) (by decide)
    (([1, 2] : List ℤ), ([3, 4] : List ℚ)) (by decide)

/-! ### Lemmas about `dedupFirst`. -/

theorem filter_swap {α : Type} (p q : α → Bool) (l : List α) :
    (l.filter p).filter q = (l.filter q).filter p := by
  rw [List.filter_filter, List.filter_filter]
  exact List.filter_congr (fun a _ => Bool.and_comm _ _)

theorem mem_dedupFirst {α : Type} [DecidableEq α] {l : List α} {x : α} :
    x ∈ dedupFirst l ↔ x ∈ l := by
  induction l with
  | nil => rfl
  | cons a l ih =>
    by_cases hx : x = a
    · subst hx
      simp [dedupFirst]
    · simp only [dedupFirst, List.mem_cons, List.mem_filter,
        decide_eq_true_eq, ih]
      constructor
      · rintro (h | ⟨h, -⟩)
        · exact Or.inl h
        · exact Or.inr h
      · rintro (h | h)
        · exact Or.inl h
        · exact Or.inr ⟨h, hx⟩

theorem nodup_dedupFirst {α : Type} [DecidableEq α] (l : List α) :
    (dedupFirst l).Nodup := by
  induction l with
  | nil => exact List.nodup_nil
  | cons a l ih =>
    refine List.Nodup.cons ?_ (ih.filter _)
    intro hmem
    have := (List.mem_filter.mp hmem).2
    simp at this

theorem dedupFirst_filter {α : Type} [DecidableEq α] (p : α → Bool)
    (l : List α) : dedupFirst (l.filter p) = (dedupFirst l).filter p := by
  induction l with
  | nil => rfl
  | cons a l ih =>
    rw [List.filter_cons]
    by_cases hpa : p a
    · rw [if_pos hpa]
      show a :: (dedupFirst (l.filter p)).filter _ = _
      rw [ih]
      have : (a :: (dedupFirst l).filter (fun x => decide (x ≠ a))).filter p
          = a :: (((dedupFirst l).filter (fun x => decide (x ≠ a))).filter p) := by
        rw [List.filter_cons, if_pos hpa]
      rw [show dedupFirst (a :: l) = a :: (dedupFirst l).filter (fun x => decide (x ≠ a)) from rfl,
        this, filter_swap]
    · rw [if_neg hpa, ih]
      rw [show dedupFirst (a :: l) = a :: (dedupFirst l).filter (fun x => decide (x ≠ a)) from rfl]
      rw [List.filter_cons, if_neg hpa, filter_swap]
      symm
      rw [List.filter_eq_self]
      intro x hx
      have hpx := (List.mem_filter.mp hx).2
      simp only [decide_eq_true_eq]
      intro hxa
      rw [hxa] at hpx
      exact hpa hpx

theorem dedupFirst_length_eq_card {α : Type} [DecidableEq α] (l : List α) :
    (dedupFirst l).length = l.toFinset.card := by
  rw [← List.toFinset_card_of_nodup (nodup_dedupFirst l)]
  congr 1
  ext x
  simp [List.mem_toFinset, mem_dedupFirst]

/-! ### Lemmas about the monthly bucketing of the growth transformer. -/

theorem setMonth_keys (d : Ymd) (v : ℚ) (acc : List ((ℤ × ℤ) × Ymd × ℚ)) :
    (setMonth d v acc).map Prod.fst =
      if (d.year, d.month) ∈ acc.map Prod.fst then acc.map Prod.fst
      else acc.map Prod.fst ++ [(d.year, d.month)] := by
  induction acc with
  | nil => simp [setMonth]
  | cons e rest ih =>
    obtain ⟨k, p⟩ := e
    by_cases hk : k = (d.year, d.month)
    · subst hk
      by_cases h2 : ymdLt p.1 d <;>
        simp [setMonth, h2, List.mem_cons]
    · have hne : ¬ ((d.year, d.month) = k) := fun h => hk h.symm
      simp only [setMonth, if_neg hk, List.map_cons, List.mem_cons, hne,
        false_or]
      rw [ih]
      by_cases hm : (d.year, d.month) ∈ rest.map Prod.fst
      · rw [if_pos hm, if_pos hm]
      · rw [if_neg hm, if_neg hm, List.cons_append]

theorem buildMonthlyGo_keys (ds : List Ymd) (vs : List ℚ)
    (acc : List ((ℤ × ℤ) × Ymd × ℚ)) :
    (buildMonthlyGo ds vs acc).map Prod.fst =
      acc.map Prod.fst ++
        dedupFirst ((ds.map fun d => (d.year, d.month)).filter
          (fun k => decide (k ∉ acc.map Prod.fst))) := by
  induction ds generalizing vs acc with
  | nil =>
    cases vs <;> simp [buildMonthlyGo, dedupFirst]
  | cons d ds ih =>
    have key_step : ∀ (v : ℚ) (vs' : List ℚ),
        (buildMonthlyGo ds vs' (setMonth d v acc)).map Prod.fst =
          acc.map Prod.fst ++
            dedupFirst (((d :: ds).map fun d => (d.year, d.month)).filter
              (fun k => decide (k ∉ acc.map Prod.fst))) := by
      intro v vs'
      rw [ih vs' (setMonth d v acc), setMonth_keys]
      by_cases hm : (d.year, d.month) ∈ acc.map Prod.fst
      · rw [if_pos hm]
        congr 1
        rw [List.map_cons, List.filter_cons, if_neg (by simp [hm])]
      · rw [if_neg hm, List.map_cons, List.filter_cons, if_pos (by simp [hm]),
          List.append_assoc]
        congr 1
        have hsplit : ((ds.map fun d => (d.year, d.month)).filter
            (fun k => decide (k ∉ (acc.map Prod.fst ++ [(d.year, d.month)]))))
          = (((ds.map fun d => (d.year, d.month)).filter
              (fun k => decide (k ∉ acc.map Prod.fst))).filter
                (fun k => decide (k ≠ (d.year, d.month)))) := by
          rw [List.filter_filter]
          refine List.filter_congr ?_
          intro a _
          by_cases h1 : a ∈ acc.map Prod.fst <;>
            by_cases h2 : a = (d.year, d.month) <;> simp [h1, h2]
        rw [List.singleton_append, hsplit, dedupFirst_filter]
        rfl
    cases vs with
    | nil => exact key_step 0 []
    | cons v vs' => exact key_step v vs'

theorem setMonth_cons_eq (d : Ymd) (v : ℚ) (k : ℤ × ℤ) (p : Ymd × ℚ)
    (rest : List ((ℤ × ℤ) × Ymd × ℚ)) (hk : k = (d.year, d.month)) :
    setMonth d v ((k, p) :: rest) =
      if ymdLt p.1 d then (k, d, v) :: rest else (k, p) :: rest := by
  simp only [setMonth, if_pos hk]

theorem setMonth_cons_ne (d : Ymd) (v : ℚ) (k : ℤ × ℤ) (p : Ymd × ℚ)
    (rest : List ((ℤ × ℤ) × Ymd × ℚ)) (hk : ¬ k = (d.year, d.month)) :
    setMonth d v ((k, p) :: rest) = (k, p) :: setMonth d v rest := by
  simp only [setMonth, if_neg hk]

theorem setMonth_find_self (d : Ymd) (v : ℚ)
    (acc : List ((ℤ × ℤ) × Ymd × ℚ)) :
    (setMonth d v acc).find? (fun e => decide (e.1 = (d.year, d.month))) =
      some ((d.year, d.month),
        match acc.find? (fun e => decide (e.1 = (d.year, d.month))) with
        | none => (d, v)
        | some e => if ymdLt e.2.1 d then (d, v) else e.2) := by
  induction acc with
  | nil => simp [setMonth]
  | cons e rest ih =>
    obtain ⟨k, p⟩ := e
    by_cases hk : k = (d.year, d.month)
    · rw [setMonth_cons_eq d v k p rest hk]
      by_cases h2 : ymdLt p.1 d
      · rw [if_pos h2]
        rw [List.find?_cons_of_pos _ (by simp [hk]),
          List.find?_cons_of_pos _ (by simp [hk])]
        simp [hk, h2]
      · rw [if_neg h2]
        rw [List.find?_cons_of_pos _ (by simp [hk])]
        simp [hk, h2]
    · rw [setMonth_cons_ne d v k p rest hk]
      rw [List.find?_cons_of_neg _ (by simp [hk])]
      rw [List.find?_cons_of_neg _ (by simp [hk])]
      exact ih

theorem setMonth_find_other (d : Ymd) (v : ℚ) (k' : ℤ × ℤ)
    (hk' : k' ≠ (d.year, d.month)) (acc : List ((ℤ × ℤ) × Ymd × ℚ)) :
    (setMonth d v acc).find? (fun e => decide (e.1 = k')) =
      acc.find? (fun e => decide (e.1 = k')) := by
  have hne : ¬ ((d.year, d.month) = k') := fun h => hk' h.symm
  induction acc with
  | nil =>
    simp only [setMonth]
    rw [List.find?_cons_of_neg _ (by simp [hne]), List.find?_nil]
  | cons e rest ih =>
    obtain ⟨k, p⟩ := e
    by_cases hk : k = (d.year, d.month)
    · have hkne : ¬ (k = k') := by rw [hk]; exact hne
      rw [setMonth_cons_eq d v k p rest hk]
      by_cases h2 : ymdLt p.1 d
      · rw [if_pos h2]
        rw [List.find?_cons_of_neg _ (by simp [hkne]),
          List.find?_cons_of_neg _ (by simp [hkne])]
      · rw [if_neg h2]
    · rw [setMonth_cons_ne d v k p rest hk]
      by_cases hkk' : k = k'
      · rw [List.find?_cons_of_pos _ (by simp [hkk']),
          List.find?_cons_of_pos _ (by simp [hkk'])]
      · rw [List.find?_cons_of_neg _ (by simp [hkk']),
          List.find?_cons_of_neg _ (by simp [hkk'])]
        exact ih

theorem chronFold_cons (init : Option (Ymd × ℚ)) (p : Ymd × ℚ)
    (l : List (Ymd × ℚ)) :
    chronFold init (p :: l) =
      chronFold
        (match init with
         | none => some p
         | some q => if ymdLt q.1 p.1 then some p else some q) l := rfl

theorem buildMonthlyGo_find (ds : List Ymd) (vs : List ℚ)
    (acc : List ((ℤ × ℤ) × Ymd × ℚ)) (k : ℤ × ℤ)
    (hlen : vs.length = ds.length) :
    (buildMonthlyGo ds vs acc).find? (fun e => decide (e.1 = k)) =
      (chronFold ((acc.find? (fun e => decide (e.1 = k))).map Prod.snd)
        ((ds.zip vs).filter (fun p => decide ((p.1.year, p.1.month) = k)))).map
        (fun p => (k, p)) := by
  induction ds generalizing vs acc with
  | nil =>
    cases vs with
    | nil =>
      show acc.find? _ = _
      cases hf : acc.find? (fun e => decide (e.1 = k)) with
      | none => simp [chronFold]
      | some e =>
        obtain ⟨k1, p1⟩ := e
        have he : k1 = k := by simpa using List.find?_some hf
        subst he
        simp [chronFold]
    | cons v vs => simp at hlen
  | cons d ds ih =>
    cases vs with
    | nil => simp at hlen
    | cons v vs =>
      have hlen' : vs.length = ds.length := by simpa using hlen
      show (buildMonthlyGo ds vs (setMonth d v acc)).find? _ = _
      rw [ih vs (setMonth d v acc) hlen']
      rw [show ((d :: ds).zip (v :: vs)) = (d, v) :: ds.zip vs from rfl]
      by_cases hkd : (d.year, d.month) = k
      · subst hkd
        rw [List.filter_cons, if_pos (by simp), chronFold_cons,
          setMonth_find_self]
        congr 1
        cases hf : acc.find? (fun e => decide (e.1 = (d.year, d.month))) with
        | none => simp
        | some e =>
          by_cases h2 : ymdLt e.2.1 d
          · simp [h2]
          · simp [h2]
      · rw [setMonth_find_other d v k (fun h => hkd h.symm) acc]
        rw [List.filter_cons, if_neg (by simp [hkd])]

theorem buildMonthly_keys (dates : List Ymd) (values : List ℚ) :
    (buildMonthly dates values).map Prod.fst
      = dedupFirst (dates.map fun d => (d.year, d.month)) := by
  show (buildMonthlyGo dates values []).map Prod.fst = _
  rw [buildMonthlyGo_keys]
  simp

theorem buildMonthly_find (dates : List Ymd) (values : List ℚ)
    (hlen : values.length = dates.length) (k : ℤ × ℤ) :
    (buildMonthly dates values).find? (fun e => decide (e.1 = k))
      = (chronLastObs (dates.zip values) k).map (fun p => (k, p)) := by
  show (buildMonthlyGo dates values []).find? _ = _
  rw [buildMonthlyGo_find dates values [] k hlen]
  rfl

/-! ### Claim C4: the growth transformer equals its reference definition. -/

/-- C4: `calculateMonthOverMonthGrowth` equals the reference definition
(bucket by `YYYY-MM` prefix keeping the chronologically last observation,
sort month keys ascending, emit labelled percent changes), and its output
length is the number of distinct months minus one (zero when at most one
distinct month is present).  The hypothesis is the Series invariant
`len(values) = len(dates)`. -/
theorem growth_matches_reference (dates : List Ymd) (values : List ℚ)
    (hlen : values.length = dates.length) :
    calculateMonthOverMonthGrowth dates values = refMonthlyGrowth dates values ∧
    (calculateMonthOverMonthGrowth dates values).1.length
      = (dates.map (fun d => (d.year, d.month))).toFinset.card - 1 := by
  have hEq : calculateMonthOverMonthGrowth dates values
      = refMonthlyGrowth dates values := by
    by_cases hd : dates = []
    · subst hd
      have h0 : values = [] := by
        cases values with
        | nil => rfl
        | cons v vs => simp at hlen
      subst h0
      rfl
    · have hne' : ¬ (dates.isEmpty = true) := by
        cases dates with
        | nil => exact absurd rfl hd
        | cons a l => simp
      unfold calculateMonthOverMonthGrowth refMonthlyGrowth
      rw [if_neg hne']
      dsimp only []
      rw [buildMonthly_keys]
      simp only [buildMonthly_find dates values hlen, Option.map_map]
      rfl
  refine ⟨hEq, ?_⟩
  rw [hEq]
  unfold refMonthlyGrowth
  dsimp only []
  rw [List.length_map, List.length_zip, List.length_tail,
    (List.perm_insertionSort monthLe _).length_eq,
    dedupFirst_length_eq_card]
  omega

theorem growth_matches_reference_witness :
    calculateMonthOverMonthGrowth
        [⟨2024, 1, 31⟩, ⟨2024, 2, 15⟩, ⟨2024, 2, 29⟩] [100, 105, 110]
      = refMonthlyGrowth
        [⟨2024, 1, 31⟩, ⟨2024, 2, 15⟩, ⟨2024, 2, 29⟩] [100, 105, 110] :=
  (growth_matches_reference
    [⟨2024, 1, 31⟩, ⟨2024, 2, 15⟩, ⟨2024, 2, 29⟩] [100, 105, 110]
    (by decide)).1

/-! ### Lemmas about the endpoint loops. -/

theorem growthPhase1_spec
    (inputs : List (String × Option (List Ymd × List ℚ))) :
    (growthPhase1 inputs).1 =
      inputs.filterMap (fun e =>
        match e.2 with
        | none => none
        | some s =>
          if (calculateMonthOverMonthGrowth s.1 s.2).1.isEmpty then none
          else some (e.1, calculateMonthOverMonthGrowth s.1 s.2)) ∧
    (growthPhase1 inputs).2 = (growthPhase1 inputs).1.length := by
  induction inputs with
  | nil => exact ⟨rfl, rfl⟩
  | cons e rest ih =>
    obtain ⟨k, s?⟩ := e
    cases s? with
    | none =>
      simpa [growthPhase1, List.filterMap_cons] using ih
    | some s =>
      by_cases hg : (calculateMonthOverMonthGrowth s.1 s.2).1.isEmpty
      · simp only [growthPhase1, List.filterMap_cons, hg, if_true, if_pos hg]
        simpa using ih
      · simp only [growthPhase1, List.filterMap_cons, if_neg hg]
        refine ⟨?_, ?_⟩
        · simp [ih.1]
        · simp [ih.2]

theorem growthPhase1_count
    (inputs : List (String × Option (List Ymd × List ℚ))) :
    (growthPhase1 inputs).2 = inputs.countP growthProductive ∧
    (growthPhase1 inputs).1.map Prod.fst
      = (inputs.filter growthProductive).map Prod.fst := by
  induction inputs with
  | nil => exact ⟨rfl, rfl⟩
  | cons e rest ih =>
    obtain ⟨k, s?⟩ := e
    cases s? with
    | none =>
      simpa [growthPhase1, List.countP_cons, growthProductive,
        List.filter_cons] using ih
    | some s =>
      by_cases hg : (calculateMonthOverMonthGrowth s.1 s.2).1.isEmpty
      · simpa [growthPhase1, List.countP_cons, growthProductive, hg,
          List.filter_cons] using ih
      · simp only [growthPhase1, if_neg hg]
        refine ⟨?_, ?_⟩
        · simp [List.countP_cons, growthProductive, hg, ih.1]
        · simp [List.filter_cons, growthProductive, hg, ih.2]

theorem momPhase1_spec (target : ℤ)
    (inputs : List (String × Option (List ℤ × List ℚ))) :
    (momPhase1 target inputs).2 = inputs.countP (momProductive target) ∧
    (momPhase1 target inputs).1.map Prod.fst
      = (inputs.filter (momProductive target)).map Prod.fst := by
  induction inputs with
  | nil => exact ⟨rfl, rfl⟩
  | cons e rest ih =>
    obtain ⟨k, s?⟩ := e
    cases s? with
    | none =>
      simpa [momPhase1, List.countP_cons, momProductive,
        List.filter_cons] using ih
    | some s =>
      by_cases hg : (calculateMomentum s.1 s.2 target).dates.isEmpty
      · simpa [momPhase1, List.countP_cons, momProductive, hg,
          List.filter_cons] using ih
      · simp only [momPhase1, if_neg hg]
        refine ⟨?_, ?_⟩
        · simp [List.countP_cons, momProductive, hg, ih.1]
        · simp [List.filter_cons, momProductive, hg, ih.2]

theorem alignMomentum_keys (data : List (String × MomentumResult)) :
    (alignMomentum data).map Prod.fst = data.map Prod.fst := by
  unfold alignMomentum
  dsimp only []
  rw [List.map_map]
  rfl

/-! ### Claims about the endpoints (C7, C8). -/

/-- C7: the growth endpoint's data equals an independent per-indicator map:
each readable indicator whose growth series is non-empty contributes its own
full monthly growth series truncated (independently of the others) to the
trailing 24-month window, and nothing else — no cross-indicator alignment
is applied, so one indicator's underlying series can never influence another
indicator's growth output. -/
theorem growth_no_alignment
    (inputs : List (String × Option (List Ymd × List ℚ))) :
    (growthEndpoint inputs).data =
      inputs.filterMap (fun e =>
        match e.2 with
        | none => none
        | some s =>
          if (calculateMonthOverMonthGrowth s.1 s.2).1.isEmpty then none
          else some (e.1, truncate24 (calculateMonthOverMonthGrowth s.1 s.2))) := by
  obtain ⟨h1, h2⟩ := growthPhase1_spec inputs
  have hrhs : inputs.filterMap (fun e =>
        match e.2 with
        | none => none
        | some s =>
          if (calculateMonthOverMonthGrowth s.1 s.2).1.isEmpty then none
          else some (e.1, truncate24 (calculateMonthOverMonthGrowth s.1 s.2)))
      = (growthPhase1 inputs).1.map (fun e => (e.1, truncate24 e.2)) := by
    rw [h1, List.map_filterMap]
    congr 1
    funext e
    obtain ⟨k, s?⟩ := e
    cases s? with
    | none => rfl
    | some s =>
      by_cases hg : (calculateMonthOverMonthGrowth s.1 s.2).1.isEmpty <;>
        simp [hg]
  unfold growthEndpoint
  dsimp only []
  rw [hrhs]
  by_cases hc : 0 < (growthPhase1 inputs).2
  · rw [if_pos hc]
  · rw [if_neg hc]
    have hnil : (growthPhase1 inputs).1 = [] := by
      have : (growthPhase1 inputs).1.length = 0 := by omega
      exact List.eq_nil_of_length_eq_zero this
    rw [hnil]
    rfl

/-- C8: for both endpoints, an indicator with a missing/unreadable store
entry or an empty transform result is omitted from the response data (its
key does not occur) without failing the request (the endpoints are total
functions), the `count` equals the number of indicators that produced data,
and `success` is true exactly when that number is positive. -/
theorem endpoints_success_count (target : ℤ)
    (inputsM : List (String × Option (List ℤ × List ℚ)))
    (inputsG : List (String × Option (List Ymd × List ℚ))) :
    ((momentumEndpoint target inputsM).success
        = decide (0 < inputsM.countP (momProductive target)) ∧
     (momentumEndpoint target inputsM).count
        = inputsM.countP (momProductive target) ∧
     (momentumEndpoint target inputsM).data.map Prod.fst
        = (inputsM.filter (momProductive target)).map Prod.fst) ∧
    ((growthEndpoint inputsG).success
        = decide (0 < inputsG.countP growthProductive) ∧
     (growthEndpoint inputsG).count = inputsG.countP growthProductive ∧
     (growthEndpoint inputsG).data.map Prod.fst
        = (inputsG.filter growthProductive).map Prod.fst) := by
  obtain ⟨hmc, hmk⟩ := momPhase1_spec target inputsM
  obtain ⟨hgc, hgk⟩ := growthPhase1_count inputsG
  refine ⟨⟨?_, ?_, ?_⟩, ⟨?_, ?_, ?_⟩⟩
  · show decide (0 < (momPhase1 target inputsM).2) = _
    rw [hmc]
  · exact hmc
  · show (if 0 < (momPhase1 target inputsM).2
        then alignMomentum (momPhase1 target inputsM).1
        else (momPhase1 target inputsM).1).map Prod.fst = _
    by_cases hc : 0 < (momPhase1 target inputsM).2
    · rw [if_pos hc, alignMomentum_keys, hmk]
    · rw [if_neg hc, hmk]
  · show decide (0 < (growthPhase1 inputsG).2) = _
    rw [hgc]
  · exact hgc
  · show (if 0 < (growthPhase1 inputsG).2
        then (growthPhase1 inputsG).1.map (fun e => (e.1, truncate24 e.2))
        else (growthPhase1 inputsG).1).map Prod.fst = _
    by_cases hc : 0 < (growthPhase1 inputsG).2
    · rw [if_pos hc, List.map_map]
      show (growthPhase1 inputsG).1.map Prod.fst = _
      rw [hgk]
    · rw [if_neg hc, hgk]
